import Mathlib

/-!
Verification of the polygon-fill core of the geowrangler repository
(`geowrangler/gridding_utils/polygon_fill.py`).

The Python functions are shallowly embedded as executable Lean
definitions: Python `int` becomes `Int`; the Python floats produced by
`interpolate_x` (and consumed by `round` at the scanline span endpoints)
are modelled exactly as integer fractions (`Frac`) with all comparisons
done by cross-multiplication; Python sets become duplicate-free lists
with membership-based operations (`setAdd`, `setUpdate`, `setDiff`);
raised exceptions become `Except PfError`.  The `debug` parameters of
the Python functions only control printing and are carried as ignored
`Bool` arguments.
-/

deriving instance DecidableEq for Except

/-- A grid point / pixel: a pair of integers. -/
abbrev Pt := Int × Int

/-- Boolean list membership, used by all the set operations below so
that every statement about them elaborates with one and the same
decision procedure. -/
def memB [DecidableEq α] : α → List α → Bool
  | _, [] => false
  | x, a :: l => if x = a then true else memB x l

lemma memB_iff [DecidableEq α] (x : α) (l : List α) :
    memB x l = true ↔ x ∈ l := by
  induction l with
  | nil => simp [memB]
  | cons a l ih =>
    by_cases h : x = a
    · simp [memB, h]
    · simp [memB, h, ih]

/-- Adding one element to a Python `set`, modelled as a duplicate-free
list in first-insertion order. -/
def setAdd [DecidableEq α] (s : List α) (x : α) : List α :=
  if memB x s then s else s ++ [x]

/-- Python `set.update(iterable)`: insert every element of `l`. -/
def setUpdate [DecidableEq α] (s l : List α) : List α :=
  l.foldl setAdd s

/-- Python set difference `s - t`. -/
def setDiff [DecidableEq α] (s t : List α) : List α :=
  s.filter (fun x => !(memB x t))

/-- Equality of two lists viewed as sets: the same members. -/
def setEqvB [DecidableEq α] (a b : List α) : Bool :=
  a.all (fun x => memB x b) && b.all (fun x => memB x a)

/-- The error surface of the polygon-fill core: the traversal step-limit
`Exception`, the `ValueError` of `interpolate_x` for horizontal segments,
the duplicate-identifier and non-polygon `ValueError`s of
`polygons_to_vertices`, and the `assert` failures of `fast_polygon_fill`. -/
inductive PfError where
  | traversalOverflow
  | sameYValue
  | duplicateId
  | nonPolygon
  | assertionFailed
deriving DecidableEq, Repr

/-- Python `range(a, b + step, step)` for `step = 1` or `step = -1`
(the two values `direction_x` / `direction_y` can take): the inclusive
integer run from `a` to `b` in the direction of `step`, empty when `b`
lies strictly behind `a`. -/
def pyRangeIncl (a b step : Int) : List Int :=
  if step = 1 then
    (List.range (b + 1 - a).toNat).map (fun (i : Nat) => a + (i : Int))
  else (List.range (a + 1 - b).toNat).map (fun (i : Nat) => a - (i : Int))

/-- The mutable state of the walker loop of `voxel_traversal_2d`:
current pixel, per-axis step counts `ix`, `iy`, and the two accumulated
output lists. -/
structure TravState where
  px : Int
  py : Int
  ix : Nat
  iy : Nat
  pixels : List Pt
  offd : List Pt
deriving DecidableEq, Repr

/-- The integer decision value of the walker
(`decision = (1 + 2*ix) * ny - (1 + 2*iy) * nx`, line 82 of the source). -/
def decisionVal (nx ny ix iy : Nat) : Int :=
  (1 + 2 * (ix : Int)) * (ny : Int) - (1 + 2 * (iy : Int)) * (nx : Int)

/-- One iteration of the walker body of `voxel_traversal_2d` (lines
82-102): on a tie both off-diagonal neighbours are recorded and both axes
advance; otherwise the favoured single axis advances.  The pixel reached
is appended to `pixels`. -/
def travStep (dirx diry : Int) (nx ny : Nat) (s : TravState) : TravState :=
  let d := decisionVal nx ny s.ix s.iy
  if d = 0 then
    { px := s.px + dirx, py := s.py + diry, ix := s.ix + 1, iy := s.iy + 1,
      pixels := s.pixels ++ [(s.px + dirx, s.py + diry)],
      offd := s.offd ++ [(s.px + dirx, s.py), (s.px, s.py + diry)] }
  else if d < 0 then
    { px := s.px + dirx, py := s.py, ix := s.ix + 1, iy := s.iy,
      pixels := s.pixels ++ [(s.px + dirx, s.py)], offd := s.offd }
  else
    { px := s.px, py := s.py + diry, ix := s.ix, iy := s.iy + 1,
      pixels := s.pixels ++ [(s.px, s.py + diry)], offd := s.offd }

/-- The loop-exit test of `voxel_traversal_2d` (lines 107-119): each axis
is finished when the current pixel has reached or passed the endpoint in
the direction of travel. -/
def isFinished (dirx diry x2 y2 : Int) (s : TravState) : Bool :=
  (if dirx = 1 then decide (s.px ≥ x2) else decide (s.px ≤ x2)) &&
    (if diry = 1 then decide (s.py ≥ y2) else decide (s.py ≤ y2))

/-- The walker loop of `voxel_traversal_2d` (lines 74-119), with the
step-count guard made structural: `fuel` is the number of iterations the
`n_steps > max_steps` guard still allows, so exhausting it is exactly the
`raise Exception("Traversal has exceeded steps limit ...")` branch. -/
def voxelLoop (dirx diry x2 y2 : Int) (nx ny : Nat) (s : TravState) :
    Nat → Except PfError (List Pt × List Pt)
  | 0 => .error .traversalOverflow
  | fuel + 1 =>
    let s' := travStep dirx diry nx ny s
    if isFinished dirx diry x2 y2 s' then .ok (s'.pixels, s'.offd)
    else voxelLoop dirx diry x2 y2 nx ny s' fuel

/-- The step ceiling of the walker loop (line 72 of the source:
`max_steps = nx + ny` where `nx = |dx|`, `ny = |dy|`). -/
def max_steps (a b : Pt) : Nat :=
  (b.1 - a.1).natAbs + (b.2 - a.2).natAbs

/-- Modelled from the spec's words only, for comparison with the
source's `max_steps`: the Manhattan distance between two endpoints. -/
def manhattanDistance (a b : Pt) : Nat :=
  (b.1 - a.1).natAbs + (b.2 - a.2).natAbs

/-- `voxel_traversal_2d(start_vertex, end_vertex, debug)` (lines 15-122):
returns the supercover line pixels and the off-diagonal pixels, or the
step-limit error.  `debug` only prints in the source and is ignored. -/
def voxel_traversal_2d (sv ev : Pt) (debug : Bool) :
    Except PfError (List Pt × List Pt) :=
  let x1 := sv.1
  let y1 := sv.2
  let x2 := ev.1
  let y2 := ev.2
  let dirx : Int := if x2 > x1 then 1 else -1
  let diry : Int := if y2 > y1 then 1 else -1
  if x1 = x2 ∧ y1 = y2 then .ok ([(x1, y1)], [])
  else if x1 = x2 then
    .ok ((pyRangeIncl y1 y2 diry).map (fun y => (x1, y)), [])
  else if y1 = y2 then
    .ok ((pyRangeIncl x1 x2 dirx).map (fun x => (x, y1)), [])
  else
    let nx := (x2 - x1).natAbs
    let ny := (y2 - y1).natAbs
    voxelLoop dirx diry x2 y2 nx ny
      ⟨x1, y1, 0, 0, [(x1, y1)], []⟩ (max_steps sv ev)

example : voxel_traversal_2d (0, 0) (2, 2) false =
    .ok ([(0, 0), (1, 1), (2, 2)], [(1, 0), (0, 1), (2, 1), (1, 2)]) := by
  decide

example : voxel_traversal_2d (0, 0) (0, 2) false =
    .ok ([(0, 0), (0, 1), (0, 2)], []) := by decide

example : voxel_traversal_2d (2, 0) (0, 0) false =
    .ok ([(2, 0), (1, 0), (0, 0)], []) := by decide

example : voxel_traversal_2d (3, 3) (3, 3) false = .ok ([(3, 3)], []) := by
  decide

example : voxel_traversal_2d (0, 0) (3, 1) false =
    .ok ([(0, 0), (1, 0), (2, 1), (3, 1)], [(2, 0), (1, 1)]) := by decide

/-- An exact model of the Python float values produced by
`interpolate_x`: a fraction `n / d` with `d > 0`, kept unreduced.  All
comparisons are by cross-multiplication, so every operation stays in
integer arithmetic. -/
abbrev Frac := Int × Int

/-- Build a fraction, normalising the sign into the numerator so the
denominator is positive. -/
def mkFrac (n d : Int) : Frac :=
  if d < 0 then (-n, -d) else (n, d)

/-- The value of a fraction as a rational number (proof-side only). -/
def fracVal (q : Frac) : ℚ := (q.1 : ℚ) / (q.2 : ℚ)

/-- Comparison of two fractions with positive denominators. -/
def fracLe (a b : Frac) : Bool := decide (a.1 * b.2 ≤ b.1 * a.2)

/-- `interpolate_x(start_vertex, end_vertex, y)` (lines 125-139): the x
value of the segment at height `y`
(`x1 + (y - y1) * (x2 - x1) / (y2 - y1)` as a single exact fraction over
the denominator `y2 - y1`), or the `ValueError` when the two vertices
share their y value. -/
def interpolate_x (sv ev : Pt) (y : Int) : Except PfError Frac :=
  if sv.2 = ev.2 then .error .sameYValue
  else
    .ok (mkFrac (sv.1 * (ev.2 - sv.2) + (y - sv.2) * (ev.1 - sv.1))
      (ev.2 - sv.2))

/-- The half-open scanline intersection test of `scanline_fill` (line
171): `(end_y < scanline_y <= start_y) or (start_y < scanline_y <= end_y)`. -/
def edgeContributes (sv ev : Pt) (y : Int) : Bool :=
  decide ((ev.2 < y ∧ y ≤ sv.2) ∨ (sv.2 < y ∧ y ≤ ev.2))

/-- Python's `round` on a fraction with positive denominator, followed
by `int(...)`: round-half-to-even. -/
def pyRound (q : Frac) : Int :=
  let f : Int := q.1.fdiv q.2
  let r : Int := q.1 - f * q.2
  if 2 * r < q.2 then f
  else if q.2 < 2 * r then f + 1
  else if f % 2 = 0 then f else f + 1

example : pyRound (5, 2) = 2 := by decide
example : pyRound (3, 2) = 2 := by decide
example : pyRound (-1, 2) = 0 := by decide
example : pyRound (7, 5) = 1 := by decide
example : pyRound (-3, 2) = -2 := by decide

/-- Python `range(a, b + 1)`: the ascending inclusive integer run,
empty when `b < a`. -/
def intRangeAsc (a b : Int) : List Int :=
  (List.range (b + 1 - a).toNat).map (fun i => a + i)

/-- The pairing `zip(points[::2], points[1::2])` of line 181: consecutive
disjoint pairs, dropping an unpaired trailing element. -/
def pairUp : List Frac → List (Frac × Frac)
  | a :: b :: rest => (a, b) :: pairUp rest
  | _ => []

/-- Stable insertion into an ascending list, the building block of the
model of Python's `list.sort()`. -/
def insertSorted (x : Frac) : List Frac → List Frac
  | [] => [x]
  | y :: ys => if fracLe x y then x :: y :: ys else y :: insertSorted x ys

/-- Python `list.sort()` on the intersection points: ascending order. -/
def sortFrac (l : List Frac) : List Frac :=
  l.foldr insertSorted []

/-- Python `min(...)` over a list with a default for the (unreachable)
empty case. -/
def listMinD (l : List Int) (dflt : Int) : Int :=
  match l with
  | [] => dflt
  | a :: r => r.foldl min a

/-- Python `max(...)` over a list with a default for the (unreachable)
empty case. -/
def listMaxD (l : List Int) (dflt : Int) : Int :=
  match l with
  | [] => dflt
  | a :: r => r.foldl max a

/-- The inner edge loop of `scanline_fill` (lines 167-174): collect the
x-intersections of every contributing edge with the scanline `y`. -/
def collectIntersections (y : Int) :
    List (Pt × Pt) → Except PfError (List Frac)
  | [] => .ok []
  | (sv, ev) :: rest =>
    if edgeContributes sv ev y then
      match interpolate_x sv ev y, collectIntersections y rest with
      | .ok x, .ok xs => .ok (x :: xs)
      | .error e, _ => .error e
      | _, .error e => .error e
    else collectIntersections y rest

/-- Lines 176-191: sort the intersection points of one scanline, pair
them up and fill the inclusive integer spans between the rounded pair
endpoints, collecting them into the row set `filled_pixels_in_row`. -/
def fillRow (pts : List Frac) (y : Int) : List Pt :=
  (pairUp (sortFrac pts)).foldl
    (fun acc p =>
      setUpdate acc ((intRangeAsc (pyRound p.1) (pyRound p.2)).map
        (fun x => (x, y))))
    []

/-- The scanline loop of `scanline_fill` (lines 163-194), accumulating
the filled pixels row by row. -/
def scanRows (edges : List (Pt × Pt)) :
    List Int → List Pt → Except PfError (List Pt)
  | [], acc => .ok acc
  | y :: rest, acc =>
    match collectIntersections y edges with
    | .error e => .error e
    | .ok pts => scanRows edges rest (setUpdate acc (fillRow pts y))

/-- `scanline_fill(vertices, debug)` (lines 142-196): all pixels in the
interior of the polygon ring `vertices`.  The empty ring returns the
empty set, a one-vertex ring returns that single pixel. -/
def scanline_fill (vertices : List Pt) (debug : Bool) :
    Except PfError (List Pt) :=
  let offset_vertices := vertices.drop 1 ++ vertices.take 1
  if vertices = [] then .ok []
  else if vertices.length = 1 then .ok (setUpdate [] vertices)
  else
    let ys := vertices.map Prod.snd
    scanRows (vertices.zip offset_vertices)
      (intRangeAsc (listMinD ys 0) (listMaxD ys 0)) []

example : scanline_fill [] false = .ok [] := by decide

example : scanline_fill [(3, 3)] false = .ok [(3, 3)] := by decide

example : scanline_fill [(0, 0), (0, 2), (2, 2), (2, 0)] false =
    .ok [(0, 1), (1, 1), (2, 1), (0, 2), (1, 2), (2, 2)] := by decide

/-- The edge loop of `voxel_traversal_scanline_fill` (lines 221-224):
run the traversal over every ring edge, accumulating boundary and
off-diagonal pixels. -/
def traverseEdges (debug : Bool) :
    List (Pt × Pt) → List Pt × List Pt →
      Except PfError (List Pt × List Pt)
  | [], acc => .ok acc
  | (sv, ev) :: rest, (pp, obp) =>
    match voxel_traversal_2d sv ev debug with
    | .error e => .error e
    | .ok (lp, odp) =>
      traverseEdges debug rest (setUpdate pp lp, setUpdate obp odp)

/-- `voxel_traversal_scanline_fill(vertices_df, x_col, y_col, debug)`
(lines 199-235); the dataframe is modelled by its list of `(x, y)`
vertex rows.  Boundary pixels come from the traversal of every edge,
interior pixels from the scanline fill, and the off-boundary pixels are
corrected by subtracting every confirmed polygon pixel. -/
def voxel_traversal_scanline_fill (vertices : List Pt) (debug : Bool) :
    Except PfError (List Pt × List Pt) :=
  let offset_vertices := vertices.drop 1 ++ vertices.take 1
  match traverseEdges debug (vertices.zip offset_vertices) ([], []) with
  | .error e => .error e
  | .ok (pp, obp) =>
    match scanline_fill vertices debug with
    | .error e => .error e
    | .ok interior =>
      let polygon_pixels := setUpdate pp interior
      .ok (polygon_pixels, setDiff obp polygon_pixels)

example : voxel_traversal_scanline_fill [] false = .ok ([], []) := by decide

example : voxel_traversal_scanline_fill [(3, 3)] false =
    .ok ([(3, 3)], []) := by decide

example : voxel_traversal_scanline_fill [(0, 0), (0, 2), (2, 2), (2, 0)]
    false =
    .ok ([(0, 0), (0, 1), (0, 2), (1, 2), (2, 2), (2, 1), (2, 0), (1, 0),
          (1, 1)], []) := by decide

example : setEqvB
    ((voxel_traversal_scanline_fill [(0, 0), (0, 2), (2, 2), (2, 0)]
        false).toOption.map Prod.fst |>.getD [])
    [(0, 0), (1, 0), (2, 0), (0, 1), (1, 1), (2, 1), (0, 2), (1, 2),
     (2, 2)] = true := by decide

/-- `SUBPOLYGON_ID_COL` (line 238). -/
def SUBPOLYGON_ID_COL : String := "__subpolygon_id__"

/-- The known columns subtracted during identifier-column inference
(line 291: `complement_cols = ["x", "y", SUBPOLYGON_ID_COL]`). -/
def complement_cols : List String := ["x", "y", SUBPOLYGON_ID_COL]

/-- One vertex row of the batch driver's input table:
`(x, y, subpolygon_id, unique_id)`.  The identifier value of the (one)
identifier column is the fourth component. -/
abbrev Row := Int × Int × Int × Int

/-- One output tile: `(x, y)` tagged with the unique id when
`has_unique_id_col` holds, untagged (`none`) otherwise. -/
abbrev Tile := Int × Int × Option Int

/-- The vertices dataframe consumed by `fast_polygon_fill`: its column
names and its rows. -/
structure VerticesDf where
  columns : List String
  rows : List Row
deriving DecidableEq, Repr

/-- Polars `unique(maintain_order=True)`: first occurrences, in order. -/
def uniqueKeepFirstAux [DecidableEq α] (seen : List α) : List α → List α
  | [] => []
  | a :: l =>
    if a ∈ seen then uniqueKeepFirstAux seen l
    else a :: uniqueKeepFirstAux (a :: seen) l

/-- Deduplicate a list keeping the first occurrence of each element. -/
def uniqueKeepFirst [DecidableEq α] (l : List α) : List α :=
  uniqueKeepFirstAux [] l

/-- The polygon-group loop of `fast_polygon_fill` (lines 305-324): for
each `(subpolygon_id, unique_id)` group, filter and deduplicate its
vertex rows, rasterize, tag when an identifier column was supplied, and
accumulate into the two global tile sets. -/
def fillLoop (rows : List Row) (hasId : Bool) :
    List (Int × Int) → List Tile × List Tile →
      Except PfError (List Tile × List Tile)
  | [], acc => .ok acc
  | (sub, uid) :: rest, (accIn, accOff) =>
    let poly_vertices := uniqueKeepFirst
      (rows.filter (fun r => decide (r.2.2.1 = sub) && decide (r.2.2.2 = uid)))
    let verts := poly_vertices.map (fun r => (r.1, r.2.1))
    match voxel_traversal_scanline_fill verts false with
    | .error e => .error e
    | .ok (pp, obp) =>
      let tg := fun (p : Pt) => (p.1, p.2, if hasId then some uid else none)
      fillLoop rows hasId rest
        (setUpdate accIn (pp.map tg), setUpdate accOff (obp.map tg))

/-- The shared body of `fast_polygon_fill` (lines 301-327): iterate the
distinct polygon ids, then apply the one global set-subtraction
`tiles_off_boundary - tiles_in_geom` after all groups are processed. -/
def fastFillCore (rows : List Row) (hasId : Bool) :
    Except PfError (List Tile × List Tile) :=
  let polygon_ids := uniqueKeepFirst (rows.map (fun r => (r.2.2.1, r.2.2.2)))
  match fillLoop rows hasId polygon_ids ([], []) with
  | .error e => .error e
  | .ok (tin, toff) => .ok (tin, setDiff toff tin)

/-- `fast_polygon_fill(vertices_df, unique_id_col)` (lines 280-347).
When no identifier column is supplied, it is inferred by set-subtracting
the known column names; the `assert len(unique_id_col) == 1` and the
`assert col in vertices_df` checks surface as `assertionFailed`. -/
def fast_polygon_fill (df : VerticesDf) (unique_id_col : Option String) :
    Except PfError (List Tile × List Tile) :=
  match unique_id_col with
  | some c =>
    if SUBPOLYGON_ID_COL ∈ df.columns ∧ c ∈ df.columns then
      fastFillCore df.rows true
    else .error .assertionFailed
  | none =>
    let inferred := (df.columns.filter
      (fun c => decide (c ∉ complement_cols))).dedup
    if inferred.length = 1 then
      if SUBPOLYGON_ID_COL ∈ df.columns ∧ ∀ c ∈ inferred, c ∈ df.columns then
        fastFillCore df.rows false
      else .error .assertionFailed
    else .error .assertionFailed

example : fast_polygon_fill
    ⟨["x", "y", "__subpolygon_id__", "uid"], [(3, 3, 0, 7)]⟩
    (some "uid") = .ok ([(3, 3, some 7)], []) := by decide

example : fast_polygon_fill
    ⟨["x", "y", "__subpolygon_id__", "uid"], [(3, 3, 0, 7)]⟩
    none = .ok ([(3, 3, none)], []) := by decide

example : fast_polygon_fill ⟨["x", "y", "__subpolygon_id__"], []⟩ none =
    .error .assertionFailed := by decide

/-- A geometry of the input GeoDataFrame of `polygons_to_vertices`: a
single polygon ring, a multi-polygon, or some non-polygonal geometry. -/
inductive Geom where
  | poly (ring : List Pt)
  | multi (rings : List (List Pt))
  | nonPoly
deriving DecidableEq, Repr

/-- GeoPandas `explode(index_parts=True)` on one geometry: its list of
single-part geometries. -/
def explodeParts : Geom → List Geom
  | .poly r => [.poly r]
  | .multi rs => rs.map .poly
  | .nonPoly => [.nonPoly]

/-- The `type == "Polygon"` test of line 265. -/
def isPolygonGeom : Geom → Bool
  | .poly _ => true
  | _ => false

/-- Pandas `Series.duplicated().any()`: some value occurs at least
twice. -/
def hasDuplicates [DecidableEq α] (l : List α) : Bool :=
  l.any (fun x => 2 ≤ l.count x)

/-- `polygons_to_vertices(polys_gdf, unique_id_col)` (lines 242-277) for
a supplied identifier column; the GeoDataFrame is modelled as the list
of its `(identifier, geometry)` rows.  Duplicate identifiers are
rejected before the geometries are exploded; non-polygonal parts are
rejected after exploding; otherwise the ordered vertex table
`(unique_id, subpolygon_id, x, y)` is produced. -/
def polygons_to_vertices (gdf : List (Int × Geom)) :
    Except PfError (List (Int × Nat × Int × Int)) :=
  if hasDuplicates (gdf.map Prod.fst) then .error .duplicateId
  else
    let exploded := (gdf.map (fun p =>
      (explodeParts p.2).enum.map (fun q => (p.1, q.1, q.2)))).flatten
    if exploded.all (fun t => isPolygonGeom t.2.2) then
      .ok ((exploded.map (fun t =>
        match t.2.2 with
        | .poly r => r.map (fun v => (t.1, t.2.1, v.1, v.2))
        | _ => [])).flatten)
    else .error .nonPolygon

example : polygons_to_vertices [(1, .poly [(0, 0), (0, 1)]), (1, .nonPoly)] =
    .error .duplicateId := by decide

example : polygons_to_vertices [(1, .poly [(0, 0)]), (2, .nonPoly)] =
    .error .nonPolygon := by decide

example : polygons_to_vertices
    [(1, .multi [[(0, 0)], [(1, 1)]]), (2, .poly [(5, 5)])] =
    .ok [(1, 0, 0, 0), (1, 1, 1, 1), (2, 0, 5, 5)] := by decide

lemma setDiff_inter_eq_nil [DecidableEq α] (b a : List α) :
    (setDiff b a).filter (fun x => memB x a) = [] := by
  rw [List.filter_eq_nil_iff]
  intro x hx
  rcases List.mem_filter.mp hx with ⟨-, hdec⟩
  rw [Bool.not_eq_true'] at hdec
  rw [hdec]
  exact Bool.false_ne_true

lemma fastFillCore_subtraction (rows : List Row) (hasId : Bool)
    (tin toff : List Tile) (h : fastFillCore rows hasId = .ok (tin, toff)) :
    toff.filter (fun t => memB t tin) = [] := by
  rcases hfl : fillLoop rows hasId
      (uniqueKeepFirst (rows.map (fun r => (r.2.2.1, r.2.2.2)))) ([], [])
    with e | p
  · simp only [fastFillCore, hfl] at h
    exact Except.noConfusion h
  · obtain ⟨a, b⟩ := p
    simp only [fastFillCore, hfl, Except.ok.injEq, Prod.mk.injEq] at h
    obtain ⟨h1, h2⟩ := h
    subst h1
    subst h2
    exact setDiff_inter_eq_nil b a

lemma edgeContributes_of_eq_y (sv ev : Pt) (y : Int) (h : sv.2 = ev.2) :
    edgeContributes sv ev y = false := by
  simp only [edgeContributes, decide_eq_false_iff_not]
  omega

lemma collectIntersections_isOk (edges : List (Pt × Pt)) (y : Int) :
    ∃ pts, collectIntersections y edges = .ok pts := by
  induction edges with
  | nil => exact ⟨[], rfl⟩
  | cons e rest ih =>
    obtain ⟨sv, ev⟩ := e
    obtain ⟨pts, hpts⟩ := ih
    by_cases hc : edgeContributes sv ev y
    · have hne : ¬ sv.2 = ev.2 := by
        intro he
        rw [edgeContributes_of_eq_y sv ev y he] at hc
        exact Bool.false_ne_true hc
      refine ⟨mkFrac (sv.1 * (ev.2 - sv.2) + (y - sv.2) * (ev.1 - sv.1))
        (ev.2 - sv.2) :: pts, ?_⟩
      simp [collectIntersections, hc, interpolate_x, hne, hpts]
    · rw [Bool.not_eq_true] at hc
      exact ⟨pts, by simp [collectIntersections, hc, hpts]⟩

lemma scanRows_isOk (edges : List (Pt × Pt)) (ys : List Int)
    (acc : List Pt) : ∃ s, scanRows edges ys acc = .ok s := by
  induction ys generalizing acc with
  | nil => exact ⟨acc, rfl⟩
  | cons y rest ih =>
    obtain ⟨pts, hpts⟩ := collectIntersections_isOk edges y
    obtain ⟨s, hs⟩ := ih (setUpdate acc (fillRow pts y))
    exact ⟨s, by simp only [scanRows, hpts, hs]⟩

lemma scanline_fill_isOk (vertices : List Pt) (d : Bool) :
    ∃ s, scanline_fill vertices d = .ok s := by
  unfold scanline_fill
  by_cases h0 : vertices = []
  · exact ⟨[], by simp [h0]⟩
  · by_cases h1 : vertices.length = 1
    · exact ⟨setUpdate [] vertices, by simp [h0, h1]⟩
    · obtain ⟨s, hs⟩ := scanRows_isOk
        (vertices.zip (vertices.drop 1 ++ vertices.take 1))
        (intRangeAsc (listMinD (vertices.map Prod.snd) 0)
          (listMaxD (vertices.map Prod.snd) 0)) []
      refine ⟨s, ?_⟩
      rw [if_neg h0, if_neg h1]
      exact hs

lemma decision_pos_at_nx (nx ny iy : Nat) (hnx : 1 ≤ nx)
    (hiy : iy < ny) : 0 < decisionVal nx ny nx iy := by
  unfold decisionVal
  have hj : (iy : Int) + 1 ≤ (ny : Int) := by exact_mod_cast hiy
  have ha : (1 : Int) ≤ (nx : Int) := by exact_mod_cast hnx
  nlinarith [mul_le_mul_of_nonneg_left hj
    (show (0 : Int) ≤ 2 * (nx : Int) by positivity)]

lemma decision_neg_at_ny (nx ny ix : Nat) (hny : 1 ≤ ny)
    (hix : ix < nx) : decisionVal nx ny ix ny < 0 := by
  unfold decisionVal
  have hj : (ix : Int) + 1 ≤ (nx : Int) := by exact_mod_cast hix
  have hb : (1 : Int) ≤ (ny : Int) := by exact_mod_cast hny
  nlinarith [mul_le_mul_of_nonneg_left hj
    (show (0 : Int) ≤ 2 * (ny : Int) by positivity)]

lemma isFinished_iff (x1 y1 dirx diry : Int) (nx ny ix iy : Nat)
    (pl od : List Pt)
    (hdx : dirx = 1 ∨ dirx = -1) (hdy : diry = 1 ∨ diry = -1)
    (hix : ix ≤ nx) (hiy : iy ≤ ny) :
    isFinished dirx diry (x1 + dirx * nx) (y1 + diry * ny)
      ⟨x1 + dirx * ix, y1 + diry * iy, ix, iy, pl, od⟩ = true ↔
    (ix = nx ∧ iy = ny) := by
  rcases hdx with h | h <;> rcases hdy with h' | h' <;> subst h <;> subst h' <;>
    simp [isFinished] <;> omega

lemma lastOfCons (a x : α) (l : List α) (h : l.getLast? = some x) :
    (a :: l).getLast? = some x := by
  cases l with
  | nil => simp at h
  | cons b t => rw [List.getLast?_cons_cons, h]

lemma travStepNeg (dirx diry px py : Int) (nx ny ix iy : Nat)
    (pl od : List Pt) (h : decisionVal nx ny ix iy < 0) :
    travStep dirx diry nx ny ⟨px, py, ix, iy, pl, od⟩ =
      ⟨px + dirx, py, ix + 1, iy, pl ++ [(px + dirx, py)], od⟩ := by
  simp [travStep, h, h.ne]

lemma travStepZero (dirx diry px py : Int) (nx ny ix iy : Nat)
    (pl od : List Pt) (h : decisionVal nx ny ix iy = 0) :
    travStep dirx diry nx ny ⟨px, py, ix, iy, pl, od⟩ =
      ⟨px + dirx, py + diry, ix + 1, iy + 1,
        pl ++ [(px + dirx, py + diry)],
        od ++ [(px + dirx, py), (px, py + diry)]⟩ := by
  simp [travStep, h]

lemma travStepPos (dirx diry px py : Int) (nx ny ix iy : Nat)
    (pl od : List Pt) (h : 0 < decisionVal nx ny ix iy) :
    travStep dirx diry nx ny ⟨px, py, ix, iy, pl, od⟩ =
      ⟨px, py + diry, ix, iy + 1, pl ++ [(px, py + diry)], od⟩ := by
  have h1 : ¬ (decisionVal nx ny ix iy = 0) := by omega
  have h2 : ¬ (decisionVal nx ny ix iy < 0) := by omega
  simp [travStep, h1, h2]

lemma ix_lt_of_dec_nonpos (nx ny ix iy : Nat) (hnx : 1 ≤ nx)
    (hix : ix ≤ nx) (hiy : iy ≤ ny) (hne : ¬(ix = nx ∧ iy = ny))
    (hd : decisionVal nx ny ix iy ≤ 0) : ix < nx := by
  rcases Nat.lt_or_ge ix nx with h | h
  · exact h
  · have hixe : ix = nx := Nat.le_antisymm hix h
    have hiylt : iy < ny := by
      rcases Nat.lt_or_ge iy ny with h' | h'
      · exact h'
      · exact absurd ⟨hixe, Nat.le_antisymm hiy h'⟩ hne
    have hpos := decision_pos_at_nx nx ny iy hnx hiylt
    rw [hixe] at hd
    omega

lemma iy_lt_of_dec_nonneg (nx ny ix iy : Nat) (hny : 1 ≤ ny)
    (hix : ix ≤ nx) (hiy : iy ≤ ny) (hne : ¬(ix = nx ∧ iy = ny))
    (hd : 0 ≤ decisionVal nx ny ix iy) : iy < ny := by
  rcases Nat.lt_or_ge iy ny with h' | h'
  · exact h'
  · have hiye : iy = ny := Nat.le_antisymm hiy h'
    have hixlt : ix < nx := by
      rcases Nat.lt_or_ge ix nx with h | h
      · exact h
      · exact absurd ⟨Nat.le_antisymm hix h, hiye⟩ hne
    have hneg := decision_neg_at_ny nx ny ix hny hixlt
    rw [hiye] at hd
    omega

lemma voxelLoop_complete (x1 y1 dirx diry : Int) (nx ny : Nat)
    (hdx : dirx = 1 ∨ dirx = -1) (hdy : diry = 1 ∨ diry = -1)
    (hnx : 1 ≤ nx) (hny : 1 ≤ ny) :
    ∀ (fuel ix iy : Nat) (pl od : List Pt),
      ix ≤ nx → iy ≤ ny → ¬(ix = nx ∧ iy = ny) →
      (nx - ix) + (ny - iy) ≤ fuel →
      ∃ suf osuf,
        voxelLoop dirx diry (x1 + dirx * nx) (y1 + diry * ny) nx ny
          ⟨x1 + dirx * ix, y1 + diry * iy, ix, iy, pl, od⟩ fuel =
          .ok (pl ++ suf, od ++ osuf) ∧
        suf.getLast? = some (x1 + dirx * nx, y1 + diry * ny) := by
  intro fuel
  induction fuel with
  | zero => intro ix iy pl od hix hiy hne hbud; omega
  | succ fuel ih =>
    intro ix iy pl od hix hiy hne hbud
    rcases lt_trichotomy (decisionVal nx ny ix iy) 0 with hd | hd | hd
    · -- horizontal step
      have hixlt : ix < nx :=
        ix_lt_of_dec_nonpos nx ny ix iy hnx hix hiy hne hd.le
      have hpx : x1 + dirx * (ix : Int) + dirx =
          x1 + dirx * ((ix + 1 : Nat) : Int) := by
        push_cast
        ring
      simp only [voxelLoop,
        travStepNeg dirx diry (x1 + dirx * ix) (y1 + diry * iy)
          nx ny ix iy pl od hd]
      rw [hpx]
      by_cases hfin : ix + 1 = nx ∧ iy = ny
      · rw [if_pos ((isFinished_iff x1 y1 dirx diry nx ny (ix + 1) iy _ _
          hdx hdy hixlt hiy).mpr hfin)]
        refine ⟨[(x1 + dirx * ((ix + 1 : Nat) : Int), y1 + diry * (iy : Int))],
          [], by simp, ?_⟩
        simp [hfin.1, hfin.2]
      · rw [if_neg (fun hf => hfin ((isFinished_iff x1 y1 dirx diry nx ny
          (ix + 1) iy _ _ hdx hdy hixlt hiy).mp hf))]
        obtain ⟨suf2, osuf2, heq, hlast⟩ := ih (ix + 1) iy
          (pl ++ [(x1 + dirx * ((ix + 1 : Nat) : Int), y1 + diry * (iy : Int))])
          od hixlt hiy hfin (by omega)
        refine ⟨(x1 + dirx * ((ix + 1 : Nat) : Int),
          y1 + diry * (iy : Int)) :: suf2, osuf2, ?_, lastOfCons _ _ _ hlast⟩
        rw [heq, List.append_assoc]
        rfl
    · -- diagonal step
      have hixlt : ix < nx :=
        ix_lt_of_dec_nonpos nx ny ix iy hnx hix hiy hne (le_of_eq hd)
      have hiylt : iy < ny :=
        iy_lt_of_dec_nonneg nx ny ix iy hny hix hiy hne (ge_of_eq hd)
      have hpx : x1 + dirx * (ix : Int) + dirx =
          x1 + dirx * ((ix + 1 : Nat) : Int) := by
        push_cast
        ring
      have hpy : y1 + diry * (iy : Int) + diry =
          y1 + diry * ((iy + 1 : Nat) : Int) := by
        push_cast
        ring
      simp only [voxelLoop,
        travStepZero dirx diry (x1 + dirx * ix) (y1 + diry * iy)
          nx ny ix iy pl od hd]
      rw [hpx, hpy]
      by_cases hfin : ix + 1 = nx ∧ iy + 1 = ny
      · rw [if_pos ((isFinished_iff x1 y1 dirx diry nx ny (ix + 1) (iy + 1)
          _ _ hdx hdy hixlt hiylt).mpr hfin)]
        refine ⟨[(x1 + dirx * ((ix + 1 : Nat) : Int),
            y1 + diry * ((iy + 1 : Nat) : Int))],
          [(x1 + dirx * ((ix + 1 : Nat) : Int), y1 + diry * (iy : Int)),
            (x1 + dirx * (ix : Int), y1 + diry * ((iy + 1 : Nat) : Int))],
          by simp, ?_⟩
        simp [hfin.1, hfin.2]
      · rw [if_neg (fun hf => hfin ((isFinished_iff x1 y1 dirx diry nx ny
          (ix + 1) (iy + 1) _ _ hdx hdy hixlt hiylt).mp hf))]
        obtain ⟨suf2, osuf2, heq, hlast⟩ := ih (ix + 1) (iy + 1)
          (pl ++ [(x1 + dirx * ((ix + 1 : Nat) : Int),
            y1 + diry * ((iy + 1 : Nat) : Int))])
          (od ++ [(x1 + dirx * ((ix + 1 : Nat) : Int), y1 + diry * (iy : Int)),
            (x1 + dirx * (ix : Int), y1 + diry * ((iy + 1 : Nat) : Int))])
          hixlt hiylt hfin (by omega)
        refine ⟨(x1 + dirx * ((ix + 1 : Nat) : Int),
            y1 + diry * ((iy + 1 : Nat) : Int)) :: suf2,
          (x1 + dirx * ((ix + 1 : Nat) : Int), y1 + diry * (iy : Int)) ::
            (x1 + dirx * (ix : Int), y1 + diry * ((iy + 1 : Nat) : Int)) ::
            osuf2, ?_, lastOfCons _ _ _ hlast⟩
        rw [heq, List.append_assoc, List.append_assoc]
        rfl
    · -- vertical step
      have hiylt : iy < ny :=
        iy_lt_of_dec_nonneg nx ny ix iy hny hix hiy hne hd.le
      have hpy : y1 + diry * (iy : Int) + diry =
          y1 + diry * ((iy + 1 : Nat) : Int) := by
        push_cast
        ring
      simp only [voxelLoop,
        travStepPos dirx diry (x1 + dirx * ix) (y1 + diry * iy)
          nx ny ix iy pl od hd]
      rw [hpy]
      by_cases hfin : ix = nx ∧ iy + 1 = ny
      · rw [if_pos ((isFinished_iff x1 y1 dirx diry nx ny ix (iy + 1)
          _ _ hdx hdy hix hiylt).mpr hfin)]
        refine ⟨[(x1 + dirx * (ix : Int), y1 + diry * ((iy + 1 : Nat) : Int))],
          [], by simp, ?_⟩
        simp [hfin.1, hfin.2]
      · rw [if_neg (fun hf => hfin ((isFinished_iff x1 y1 dirx diry nx ny
          ix (iy + 1) _ _ hdx hdy hix hiylt).mp hf))]
        obtain ⟨suf2, osuf2, heq, hlast⟩ := ih ix (iy + 1)
          (pl ++ [(x1 + dirx * (ix : Int), y1 + diry * ((iy + 1 : Nat) : Int))])
          od hix hiylt hfin (by omega)
        refine ⟨(x1 + dirx * (ix : Int),
          y1 + diry * ((iy + 1 : Nat) : Int)) :: suf2, osuf2, ?_,
          lastOfCons _ _ _ hlast⟩
        rw [heq, List.append_assoc]
        rfl

lemma headMap (f : α → β) (l : List α) :
    (l.map f).head? = l.head?.map f := by
  cases l <;> simp

lemma lastMap (f : α → β) (l : List α) :
    (l.map f).getLast? = l.getLast?.map f := by
  induction l with
  | nil => simp
  | cons a t ih =>
    cases t with
    | nil => simp
    | cons b t2 =>
      rw [List.map_cons, List.map_cons, List.getLast?_cons_cons,
        ← List.map_cons, ih, List.getLast?_cons_cons]

lemma pyRangeUp (a b : Int) (h : a ≤ b) :
    (pyRangeIncl a b 1).head? = some a ∧
      (pyRangeIncl a b 1).getLast? = some b := by
  have hn : (b + 1 - a).toNat = (b - a).toNat + 1 := by omega
  unfold pyRangeIncl
  rw [if_pos rfl, hn]
  constructor
  · rw [List.range_succ_eq_map]
    simp
  · rw [List.range_succ, List.map_append]
    simp only [List.map_cons, List.map_nil, List.getLast?_concat]
    have hc : ((b - a).toNat : Int) = b - a := Int.toNat_of_nonneg (by omega)
    rw [hc]
    norm_num

lemma pyRangeDown (a b : Int) (h : b ≤ a) :
    (pyRangeIncl a b (-1)).head? = some a ∧
      (pyRangeIncl a b (-1)).getLast? = some b := by
  have hn : (a + 1 - b).toNat = (a - b).toNat + 1 := by omega
  unfold pyRangeIncl
  rw [if_neg (by decide : ¬((-1 : Int) = 1)), hn]
  constructor
  · rw [List.range_succ_eq_map]
    simp
  · rw [List.range_succ, List.map_append]
    simp only [List.map_cons, List.map_nil, List.getLast?_concat]
    have hc : ((a - b).toNat : Int) = a - b := Int.toNat_of_nonneg (by omega)
    rw [hc]
    norm_num


/-- C1 (counterexample): the step ceiling `max_steps` computed by
`voxel_traversal_2d` at the endpoints (0,0) and (2,1) is 3 — the
Manhattan distance itself — not twice the Manhattan distance (6), so the
claimed ceiling of twice the Manhattan distance is not the one in the
code. -/
theorem C1_counterexample :
    max_steps (0, 0) (2, 1) ≠ 2 * manhattanDistance (0, 0) (2, 1) := by
  decide

/-- C1 (amended): the walker loop of `voxel_traversal_2d` is guarded by
a hard step-count ceiling equal to the Manhattan distance |dx| + |dy|
between the two endpoints (not twice it), and whenever the walker's step
budget is exhausted the loop fails with the traversal-overflow error
instead of looping indefinitely. -/
theorem C1_overflow_guard :
    (∀ a b : Pt, max_steps a b = manhattanDistance a b) ∧
    (∀ (dirx diry x2 y2 : Int) (nx ny : Nat) (s : TravState),
      voxelLoop dirx diry x2 y2 nx ny s 0 = .error .traversalOverflow) :=
  ⟨fun _ _ => rfl, fun _ _ _ _ _ _ _ => rfl⟩

/-- C2 (counterexample): rasterizing the empty vertex ring does not
surface any error — both rasterization operations return an ordinary
(empty) result. -/
theorem C2_counterexample :
    scanline_fill [] false = .ok [] ∧
    voxel_traversal_scanline_fill [] false = .ok ([], []) :=
  ⟨by decide, by decide⟩

/-- C2 (amended): rasterizing an empty vertex ring returns an empty
result rather than raising an input-validation error: `scanline_fill`
returns the empty pixel set and `voxel_traversal_scanline_fill` returns
empty polygon-pixel and off-boundary-pixel sets. -/
theorem C2_empty_ring :
    ∀ d : Bool,
      scanline_fill [] d = .ok [] ∧
      voxel_traversal_scanline_fill [] d = .ok ([], []) :=
  fun _ => ⟨rfl, rfl⟩

/-- C4: traversing the segment from (0,0) to (2,2) yields line cells
containing (0,0), (1,1) and (2,2) and ambiguous cells containing (1,0)
and (0,1); moreover at every decision tie (`decision == 0`) one walker
step records both the horizontally- and vertically-adjacent cells as
off-diagonal and advances one step in both axes simultaneously. -/
theorem C4_diagonal_tie :
    (∃ lp od, voxel_traversal_2d (0, 0) (2, 2) false = .ok (lp, od) ∧
      (0, 0) ∈ lp ∧ (1, 1) ∈ lp ∧ (2, 2) ∈ lp ∧
      (1, 0) ∈ od ∧ (0, 1) ∈ od) ∧
    (∀ (dirx diry : Int) (nx ny : Nat) (s : TravState),
      decisionVal nx ny s.ix s.iy = 0 →
      travStep dirx diry nx ny s =
        ⟨s.px + dirx, s.py + diry, s.ix + 1, s.iy + 1,
          s.pixels ++ [(s.px + dirx, s.py + diry)],
          s.offd ++ [(s.px + dirx, s.py), (s.px, s.py + diry)]⟩) := by
  constructor
  · exact ⟨[(0, 0), (1, 1), (2, 2)], [(1, 0), (0, 1), (2, 1), (1, 2)],
      by decide, by decide, by decide, by decide, by decide, by decide⟩
  · intro dirx diry nx ny s h
    simp [travStep, h]

/-- C4 (witness): the tie-step equation of `C4_diagonal_tie` evaluated
at the first step of the (0,0) → (2,2) traversal. -/
theorem C4_witness :
    travStep 1 1 2 2 ⟨0, 0, 0, 0, [(0, 0)], []⟩ =
      ⟨1, 1, 1, 1, [(0, 0), (1, 1)], [(1, 0), (0, 1)]⟩ :=
  C4_diagonal_tie.2 1 1 2 2 ⟨0, 0, 0, 0, [(0, 0)], []⟩ (by decide)

/-- C5: rasterizing the ring [(0,0),(0,2),(2,2),(2,0)] yields polygon
cells equal to exactly the nine cells with both coordinates in {0,1,2},
and an empty ambiguous (off-boundary) cell set. -/
theorem C5_unit_square :
    ∃ poly off,
      voxel_traversal_scanline_fill [(0, 0), (0, 2), (2, 2), (2, 0)]
        false = .ok (poly, off) ∧
      (∀ p : Pt, p ∈ poly ↔
        ((p.1 = 0 ∨ p.1 = 1 ∨ p.1 = 2) ∧
          (p.2 = 0 ∨ p.2 = 1 ∨ p.2 = 2))) ∧
      off = [] := by
  refine ⟨[(0, 0), (0, 1), (0, 2), (1, 2), (2, 2), (2, 1), (2, 0), (1, 0),
    (1, 1)], [], by decide, ?_, rfl⟩
  intro p
  obtain ⟨a, b⟩ := p
  simp only [List.mem_cons, List.not_mem_nil, or_false, Prod.mk.injEq]
  omega

/-- C6: segment traversal is deterministic — two invocations on the same
endpoints (regardless of the `debug` flag) return identical results, the
ordered `line_pixels` sequence included; the decision value is computed
in integer-only arithmetic (`decisionVal` maps into `Int`). -/
theorem C6_determinism :
    ∀ (sv ev : Pt) (d d' : Bool),
      voxel_traversal_2d sv ev d = voxel_traversal_2d sv ev d' :=
  fun _ _ _ _ => rfl

/-- C7: a horizontal edge (equal y values) never satisfies the half-open
scanline intersection condition, and consequently `scanline_fill` never
reaches the division-by-zero error branch of `interpolate_x`: it returns
an ordinary result on every input. -/
theorem C7_horizontal_edges :
    (∀ (sv ev : Pt) (y : Int), sv.2 = ev.2 →
      edgeContributes sv ev y = false) ∧
    (∀ (vertices : List Pt) (d : Bool),
      ∃ s, scanline_fill vertices d = .ok s) :=
  ⟨edgeContributes_of_eq_y, scanline_fill_isOk⟩

/-- C7 (witness): the horizontal edge from (0,5) to (9,5) contributes no
intersection at its own scanline y = 5. -/
theorem C7_witness : edgeContributes (0, 5) (9, 5) 5 = false :=
  C7_horizontal_edges.1 (0, 5) (9, 5) 5 rfl

/-- C8: when the supplied external-identifier column contains a
duplicated value, `polygons_to_vertices` raises the duplicate-identifier
error (before any exploding: the error wins even over non-polygonal
geometries, and no vertex table is produced); when the identifier column
is duplicate-free, the duplicate-identifier error is never raised. -/
theorem C8_duplicate_check :
    (∀ gdf : List (Int × Geom),
      hasDuplicates (gdf.map Prod.fst) = true →
      polygons_to_vertices gdf = .error .duplicateId) ∧
    (∀ gdf : List (Int × Geom),
      hasDuplicates (gdf.map Prod.fst) = false →
      polygons_to_vertices gdf ≠ .error .duplicateId) := by
  constructor
  · intro gdf h
    simp [polygons_to_vertices, h]
  · intro gdf h
    have hh : ¬ (hasDuplicates (gdf.map Prod.fst) = true) := by
      rw [h]
      exact Bool.false_ne_true
    simp only [polygons_to_vertices, if_neg hh]
    split
    · simp
    · simp

/-- C8 (witness): duplicated identifier 1 on two rows whose geometries
are not even polygons still yields the duplicate-identifier error (and
not the non-polygon error), showing the check runs before exploding. -/
theorem C8_witness :
    hasDuplicates
      (([(1, Geom.nonPoly), (1, Geom.nonPoly)]).map Prod.fst) = true ∧
    polygons_to_vertices [(1, Geom.nonPoly), (1, Geom.nonPoly)] =
      .error .duplicateId :=
  ⟨by decide, C8_duplicate_check.1 _ (by decide)⟩

/-- C9: with `unique_id_col = None`, `fast_polygon_fill` infers the
identifier column by set-subtracting {x, y, __subpolygon_id__} from the
input columns and asserts exactly one column remains: whenever the
number of remaining distinct columns differs from one (none, or two and
more), the call fails the assertion instead of being processed. -/
theorem C9_column_inference :
    ∀ df : VerticesDf,
      ((df.columns.filter
        (fun c => decide (c ∉ complement_cols))).dedup).length ≠ 1 →
      fast_polygon_fill df none = .error .assertionFailed := by
  intro df h
  simp only [fast_polygon_fill]
  rw [if_neg h]

/-- C9 (witness): a vertex table carrying only the three known columns
x, y, __subpolygon_id__ (no identifier column at all) fails the
assertion. -/
theorem C9_witness :
    ((["x", "y", "__subpolygon_id__"].filter
      (fun c => decide (c ∉ complement_cols))).dedup).length ≠ 1 ∧
    fast_polygon_fill ⟨["x", "y", "__subpolygon_id__"], []⟩ none =
      .error .assertionFailed :=
  ⟨by decide,
    C9_column_inference ⟨["x", "y", "__subpolygon_id__"], []⟩ (by decide)⟩

/-- C3: for every batch input accepted by `fast_polygon_fill`, the final
off-boundary table shares no tile with the in-geometry table — the
single global set-subtraction performed after all polygon groups are
processed leaves no common row. -/
theorem C3_global_subtraction :
    ∀ (df : VerticesDf) (col : Option String) (tin toff : List Tile),
      fast_polygon_fill df col = .ok (tin, toff) →
      toff.filter (fun t => memB t tin) = [] := by
  intro df col tin toff h
  cases col with
  | some c =>
    simp only [fast_polygon_fill] at h
    split at h
    · exact fastFillCore_subtraction df.rows true tin toff h
    · exact Except.noConfusion h
  | none =>
    simp only [fast_polygon_fill] at h
    split at h
    · split at h
      · exact fastFillCore_subtraction df.rows false tin toff h
      · exact Except.noConfusion h
    · exact Except.noConfusion h

/-- C3 (witness): a one-polygon batch evaluated concretely, with the
subtraction property instantiated on its output tables. -/
theorem C3_witness :
    fast_polygon_fill
      ⟨["x", "y", "__subpolygon_id__", "uid"], [(3, 3, 0, 7)]⟩
      (some "uid") = .ok ([(3, 3, some 7)], []) ∧
    ([] : List Tile).filter (fun t => memB t [(3, 3, some 7)]) = [] :=
  ⟨by decide,
    C3_global_subtraction
      ⟨["x", "y", "__subpolygon_id__", "uid"], [(3, 3, 0, 7)]⟩
      (some "uid") [(3, 3, some 7)] [] (by decide)⟩

/-- C10: for every pair of integer endpoints the walker loop of
`voxel_traversal_2d` terminates within its step budget |dx| + |dy|
without triggering the step-limit guard — the traversal returns an
ordinary result — and the returned `line_pixels` sequence begins at the
start vertex and ends exactly at the end vertex with no overshoot. -/
theorem C10_traversal_terminates :
    ∀ sv ev : Pt, ∃ pix od,
      voxel_traversal_2d sv ev false = .ok (pix, od) ∧
      pix.head? = some sv ∧ pix.getLast? = some ev := by
  intro sv ev
  obtain ⟨x1, y1⟩ := sv
  obtain ⟨x2, y2⟩ := ev
  by_cases hp : x1 = x2 ∧ y1 = y2
  · obtain ⟨h1, h2⟩ := hp
    subst h1
    subst h2
    exact ⟨[(x1, y1)], [], by simp [voxel_traversal_2d], by simp, by simp⟩
  · by_cases hx : x1 = x2
    · -- vertical segment
      have hy : ¬ y1 = y2 := fun h => hp ⟨hx, h⟩
      subst hx
      by_cases hgt : y2 > y1
      · obtain ⟨hh, hl⟩ := pyRangeUp y1 y2 (le_of_lt hgt)
        refine ⟨(pyRangeIncl y1 y2 1).map (fun y => (x1, y)), [], ?_, ?_, ?_⟩
        · simp only [voxel_traversal_2d]
          rw [if_neg (show ¬(True ∧ y1 = y2) from fun hc => hy hc.2),
            if_pos (show True from trivial), if_pos hgt]
        · rw [headMap, hh]
          rfl
        · rw [lastMap, hl]
          rfl
      · obtain ⟨hh, hl⟩ := pyRangeDown y1 y2 (by omega)
        refine ⟨(pyRangeIncl y1 y2 (-1)).map (fun y => (x1, y)), [],
          ?_, ?_, ?_⟩
        · simp only [voxel_traversal_2d]
          rw [if_neg (show ¬(True ∧ y1 = y2) from fun hc => hy hc.2),
            if_pos (show True from trivial), if_neg hgt]
        · rw [headMap, hh]
          rfl
        · rw [lastMap, hl]
          rfl
    · by_cases hyeq : y1 = y2
      · -- horizontal segment
        subst hyeq
        by_cases hgt : x2 > x1
        · obtain ⟨hh, hl⟩ := pyRangeUp x1 x2 (le_of_lt hgt)
          refine ⟨(pyRangeIncl x1 x2 1).map (fun x => (x, y1)), [],
            ?_, ?_, ?_⟩
          · simp only [voxel_traversal_2d]
            rw [if_neg (show ¬(x1 = x2 ∧ True) from fun hc => hx hc.1),
              if_neg hx, if_pos (show True from trivial), if_pos hgt]
          · rw [headMap, hh]
            rfl
          · rw [lastMap, hl]
            rfl
        · obtain ⟨hh, hl⟩ := pyRangeDown x1 x2 (by omega)
          refine ⟨(pyRangeIncl x1 x2 (-1)).map (fun x => (x, y1)), [],
            ?_, ?_, ?_⟩
          · simp only [voxel_traversal_2d]
            rw [if_neg (show ¬(x1 = x2 ∧ True) from fun hc => hx hc.1),
              if_neg hx, if_pos (show True from trivial), if_neg hgt]
          · rw [headMap, hh]
            rfl
          · rw [lastMap, hl]
            rfl
      · -- general walker case
        have hnx : 1 ≤ (x2 - x1).natAbs := by omega
        have hny : 1 ≤ (y2 - y1).natAbs := by omega
        by_cases hgx : x2 > x1 <;> by_cases hgy : y2 > y1
        · have hx2e : x1 + 1 * (((x2 - x1).natAbs : Nat) : Int) = x2 := by
            omega
          have hy2e : y1 + 1 * (((y2 - y1).natAbs : Nat) : Int) = y2 := by
            omega
          obtain ⟨suf, osuf, heq, hlast⟩ := voxelLoop_complete x1 y1 1 1
            (x2 - x1).natAbs (y2 - y1).natAbs (Or.inl rfl) (Or.inl rfl)
            hnx hny (max_steps (x1, y1) (x2, y2)) 0 0 [(x1, y1)] []
            (Nat.zero_le _) (Nat.zero_le _) (by omega)
            (by simp [max_steps])
          rw [show x1 + 1 * ((0 : Nat) : Int) = x1 by simp,
            show y1 + 1 * ((0 : Nat) : Int) = y1 by simp,
            hx2e, hy2e] at heq
          rw [hx2e, hy2e] at hlast
          refine ⟨(x1, y1) :: suf, osuf, ?_, rfl, lastOfCons _ _ _ hlast⟩
          simp only [voxel_traversal_2d]
          rw [if_neg hp, if_neg hx, if_neg hyeq, if_pos hgx, if_pos hgy]
          exact heq
        · have hx2e : x1 + 1 * (((x2 - x1).natAbs : Nat) : Int) = x2 := by
            omega
          have hy2e : y1 + (-1) * (((y2 - y1).natAbs : Nat) : Int) = y2 := by
            omega
          obtain ⟨suf, osuf, heq, hlast⟩ := voxelLoop_complete x1 y1 1 (-1)
            (x2 - x1).natAbs (y2 - y1).natAbs (Or.inl rfl) (Or.inr rfl)
            hnx hny (max_steps (x1, y1) (x2, y2)) 0 0 [(x1, y1)] []
            (Nat.zero_le _) (Nat.zero_le _) (by omega)
            (by simp [max_steps])
          rw [show x1 + 1 * ((0 : Nat) : Int) = x1 by simp,
            show y1 + (-1) * ((0 : Nat) : Int) = y1 by simp,
            hx2e, hy2e] at heq
          rw [hx2e, hy2e] at hlast
          refine ⟨(x1, y1) :: suf, osuf, ?_, rfl, lastOfCons _ _ _ hlast⟩
          simp only [voxel_traversal_2d]
          rw [if_neg hp, if_neg hx, if_neg hyeq, if_pos hgx, if_neg hgy]
          exact heq
        · have hx2e : x1 + (-1) * (((x2 - x1).natAbs : Nat) : Int) = x2 := by
            omega
          have hy2e : y1 + 1 * (((y2 - y1).natAbs : Nat) : Int) = y2 := by
            omega
          obtain ⟨suf, osuf, heq, hlast⟩ := voxelLoop_complete x1 y1 (-1) 1
            (x2 - x1).natAbs (y2 - y1).natAbs (Or.inr rfl) (Or.inl rfl)
            hnx hny (max_steps (x1, y1) (x2, y2)) 0 0 [(x1, y1)] []
            (Nat.zero_le _) (Nat.zero_le _) (by omega)
            (by simp [max_steps])
          rw [show x1 + (-1) * ((0 : Nat) : Int) = x1 by simp,
            show y1 + 1 * ((0 : Nat) : Int) = y1 by simp,
            hx2e, hy2e] at heq
          rw [hx2e, hy2e] at hlast
          refine ⟨(x1, y1) :: suf, osuf, ?_, rfl, lastOfCons _ _ _ hlast⟩
          simp only [voxel_traversal_2d]
          rw [if_neg hp, if_neg hx, if_neg hyeq, if_neg hgx, if_pos hgy]
          exact heq
        · have hx2e : x1 + (-1) * (((x2 - x1).natAbs : Nat) : Int) = x2 := by
            omega
          have hy2e : y1 + (-1) * (((y2 - y1).natAbs : Nat) : Int) = y2 := by
            omega
          obtain ⟨suf, osuf, heq, hlast⟩ := voxelLoop_complete x1 y1 (-1) (-1)
            (x2 - x1).natAbs (y2 - y1).natAbs (Or.inr rfl) (Or.inr rfl)
            hnx hny (max_steps (x1, y1) (x2, y2)) 0 0 [(x1, y1)] []
            (Nat.zero_le _) (Nat.zero_le _) (by omega)
            (by simp [max_steps])
          rw [show x1 + (-1) * ((0 : Nat) : Int) = x1 by simp,
            show y1 + (-1) * ((0 : Nat) : Int) = y1 by simp,
            hx2e, hy2e] at heq
          rw [hx2e, hy2e] at hlast
          refine ⟨(x1, y1) :: suf, osuf, ?_, rfl, lastOfCons _ _ _ hlast⟩
          simp only [voxel_traversal_2d]
          rw [if_neg hp, if_neg hx, if_neg hyeq, if_neg hgx, if_neg hgy]
          exact heq
